import Mathlib

/-!
Verification development for the Autonion browser-automation extension.

The definitions below are a shallow embedding of the JavaScript sources:
  * src/utils/schema.js    — plan validation and the safety layer
  * src/unnamed/part_000   — background orchestrator: WebSocket reconnection,
                             trigger rules, transaction ledger, kill switch,
                             browser-plan executor, message dispatch

JavaScript values that matter to the embedded code (strings, numbers,
booleans, arrays, objects, null/undefined) are modelled with `Json` and
`Option`; JS truthiness is made explicit via `jsTruthy` / `jsFalsyStr`.
-/

namespace Autonion

/-- Model of a JSON value (a JS value as far as the embedded code inspects it).
Numbers are modelled as integers: every numeric literal the claims exercise is
integral, and `JSON.stringify` of an integral double prints it in integer form. -/
inductive Json where
  | null
  | bool (b : Bool)
  | num (n : Int)
  | str (s : String)
  | arr (elems : List Json)
  | obj (fields : List (String × Json))
deriving Repr

/-- JS truthiness of a `Json` value (`undefined` is handled by `Option` at use
sites): `null`, `false`, `0` and `""` are falsy, everything else truthy. -/
def jsTruthy : Json → Bool
  | Json.null => false
  | Json.bool b => b
  | Json.num n => n != 0
  | Json.str s => s != ""
  | Json.arr _ => true
  | Json.obj _ => true

/-- Truthiness test for an optional string field: `undefined` and `""` are falsy. -/
def jsFalsyStr : Option String → Bool
  | none => true
  | some s => s == ""

/-- JS `a || b` on optional string fields: keep `a` when truthy, else `b`. -/
def jsOrStr (a b : Option String) : Option String :=
  if jsFalsyStr a then b else a

/-- Escape one character the way `JSON.stringify` does for the characters that
can occur in the embedded data (quote, backslash and common control chars). -/
def jsEscapeChar (c : Char) : String :=
  if c = '\"' then "\\\""
  else if c = '\\' then "\\\\"
  else if c = '\n' then "\\n"
  else if c = '\r' then "\\r"
  else if c = '\t' then "\\t"
  else String.singleton c

/-- Quote a string as `JSON.stringify` does. -/
def jsQuote (s : String) : String :=
  "\"" ++ String.join (s.toList.map jsEscapeChar) ++ "\""

mutual

/-- `JSON.stringify` on the `Json` model (no spacing, insertion field order). -/
def Json.stringify : Json → String
  | Json.null => "null"
  | Json.bool b => if b then "true" else "false"
  | Json.num n => toString n
  | Json.str s => jsQuote s
  | Json.arr es => "[" ++ stringifyElems es ++ "]"
  | Json.obj fs => "\x7b" ++ stringifyFields fs ++ "\x7d"

/-- Comma-separated serialization of array elements. -/
def stringifyElems : List Json → String
  | [] => ""
  | [j] => Json.stringify j
  | j :: rest => Json.stringify j ++ "," ++ stringifyElems rest

/-- Comma-separated serialization of object fields. -/
def stringifyFields : List (String × Json) → String
  | [] => ""
  | [(k, v)] => jsQuote k ++ ":" ++ Json.stringify v
  | (k, v) :: rest => jsQuote k ++ ":" ++ Json.stringify v ++ "," ++ stringifyFields rest

end

/-- Lowercase one character as `String.prototype.toLowerCase` does on the
ASCII range (all data the embedded code lowercases is ASCII). -/
def lowerChar (c : Char) : Char :=
  if 'A' ≤ c ∧ c ≤ 'Z' then Char.ofNat (c.toNat + 32) else c

/-- JS `toLowerCase` on the ASCII range. -/
def lowerStr (s : String) : String :=
  String.mk (s.toList.map lowerChar)

/-- Does `l` start with `sub`? (character-list prefix test). -/
def startsWithChars : List Char → List Char → Bool
  | _, [] => true
  | [], _ :: _ => false
  | a :: as, b :: bs => a == b && startsWithChars as bs

/-- Does `l` contain `sub` as a contiguous run? -/
def containsChars (sub : List Char) : List Char → Bool
  | [] => sub.isEmpty
  | c :: rest => startsWithChars (c :: rest) sub || containsChars sub rest

/-- JS `String.prototype.includes`: substring containment. -/
def jsIncludes (s sub : String) : Bool :=
  containsChars sub.toList s.toList

-- ── schema.js constants ──────────────────────────────────────

/-- schema.js ALLOWED_ACTIONS. -/
def ALLOWED_ACTIONS : List String :=
  ["open_url", "click_element", "type_into", "press_key", "wait", "scroll_to",
   "select_option", "read_text", "go_back", "go_forward", "refresh", "close_tab"]

/-- schema.js DESTRUCTIVE_KEYWORDS. -/
def DESTRUCTIVE_KEYWORDS : List String :=
  ["delete", "remove", "reset", "format", "purchase", "buy", "unsubscribe",
   "deactivate", "terminate", "cancel subscription", "erase"]

/-- schema.js MAX_STEPS. -/
def MAX_STEPS : Nat := 10

/-- One plan step as validatePlan/runSafetyCheck see it.  `action` and
`safety_check` are string-or-absent fields, `params` an arbitrary JSON value
or absent. -/
structure Step where
  action : Option String
  params : Option Json
  safety_check : Option String
deriving Repr

/-- The parsed plan object, restricted to the fields the pipeline reads.
`steps`/`actions` are `some` exactly when the field holds an array. -/
structure PlanObj where
  transaction_id : Option String
  steps : Option (List Step)
  actions : Option (List Step)
deriving Repr

/-- `plan.steps || plan.actions` (an array is always truthy, even empty). -/
def jsPlanSteps (p : PlanObj) : Option (List Step) :=
  match p.steps with
  | some l => some l
  | none => p.actions

/-- `!step.params || typeof step.params !== 'object'` is FALSE exactly for
arrays and objects (JS arrays have typeof 'object'; null is falsy). -/
def isObjectParams : Option Json → Bool
  | some (Json.arr _) => true
  | some (Json.obj _) => true
  | _ => false

/-- Per-step validation errors, exactly as the loop body of validatePlan
produces them (a missing action skips the params check via `continue`). -/
def stepErrors (i : Nat) (s : Step) : List String :=
  if jsFalsyStr s.action then
    ["Step " ++ toString (i + 1) ++ ": missing \"action\" field"]
  else
    (if ALLOWED_ACTIONS.contains (s.action.getD "") then []
     else ["Step " ++ toString (i + 1) ++ ": unknown action \"" ++ s.action.getD "" ++ "\""]) ++
    (if isObjectParams s.params then []
     else ["Step " ++ toString (i + 1) ++ ": missing or invalid \"params\" object"])

/-- The error-collecting loop of validatePlan, indexed from `i`. -/
def errorsFrom : Nat → List Step → List String
  | _, [] => []
  | i, s :: rest => stepErrors i s ++ errorsFrom (i + 1) rest

/-- Result record of validatePlan. -/
structure ValidationResult where
  valid : Bool
  errors : List String
  plan : Option PlanObj
deriving Repr

/-- schema.js validatePlan.  `genId` stands for the freshly generated
transaction id (`crypto.randomUUID()` / the `txn-${Date.now()}` fallback),
passed in because it is the one nondeterministic input. -/
def validatePlan (genId : String) (plan : PlanObj) : ValidationResult :=
  match jsPlanSteps plan with
  | none => { valid := false, errors := ["Plan must contain a \"steps\" array"], plan := none }
  | some steps =>
    let txid := if jsFalsyStr plan.transaction_id then genId else plan.transaction_id.getD ""
    let plan1 : PlanObj := { plan with steps := some steps, transaction_id := some txid }
    if steps.length > MAX_STEPS then
      { valid := false
        errors := ["Plan has " ++ toString steps.length ++ " steps, maximum allowed is "
                   ++ toString MAX_STEPS]
        plan := none }
    else if steps.length = 0 then
      { valid := false, errors := ["Plan has no steps"], plan := none }
    else
      let errs := errorsFrom 0 steps
      { valid := errs.isEmpty
        errors := errs
        plan := if errs.isEmpty then some plan1 else none }

-- ── runSafetyCheck ───────────────────────────────────────────

/-- `step.params || {}`. -/
def paramsOrEmpty : Option Json → Json
  | none => Json.obj []
  | some v => if jsTruthy v then v else Json.obj []

/-- The destructive keywords whose lowercase serialization-scan hits this step:
`JSON.stringify(step.params || {}).toLowerCase().includes(keyword)`. -/
def stepHits (s : Step) : List String :=
  DESTRUCTIVE_KEYWORDS.filter
    (fun kw => jsIncludes (lowerStr (Json.stringify (paramsOrEmpty s.params))) kw)

/-- The violation messages one step contributes (one per keyword hit). -/
def stepViolations (i : Nat) (s : Step) : List String :=
  (stepHits s).map
    (fun kw => "Step " ++ toString (i + 1) ++ ": contains destructive keyword \""
               ++ kw ++ "\" — BLOCKED")

/-- The violation-collecting loop of runSafetyCheck, indexed from `i`. -/
def violationsFrom : Nat → List Step → List String
  | _, [] => []
  | i, s :: rest => stepViolations i s ++ violationsFrom (i + 1) rest

/-- The per-step safety_check update: every keyword hit assigns 'blocked',
then `if (!step.safety_check || step.safety_check !== 'blocked')` assigns
'passed' (equivalently: anything not marked 'blocked' becomes 'passed'). -/
def applySafetyToStep (s : Step) : Step :=
  let s1 := if (stepHits s).isEmpty then s else { s with safety_check := some "blocked" }
  if s1.safety_check = some "blocked" then s1 else { s1 with safety_check := some "passed" }

/-- Result record of runSafetyCheck. -/
structure SafetyResult where
  safe : Bool
  violations : List String
  plan : PlanObj
deriving Repr

/-- schema.js runSafetyCheck.  The `allowedDomains` set the source builds from
open_url steps is collected but never read afterwards (origin validation is a
comment only), so it does not appear in the result.  Called on validated plans,
whose `steps` field is always present. -/
def runSafetyCheck (plan : PlanObj) : SafetyResult :=
  let steps := plan.steps.getD []
  { safe := (violationsFrom 0 steps).isEmpty
    violations := violationsFrom 0 steps
    plan := { plan with steps := some (steps.map applySafetyToStep) } }

-- ══════════════════════════════════════════════════════════════
-- background service worker (src/unnamed/part_000)
-- ══════════════════════════════════════════════════════════════

-- ── handleChatbotResponse: validation → safety → partition ───

/-- The browserActions list of handleChatbotResponse (line 627). -/
def BROWSER_ACTIONS : List String :=
  ["open_url", "click_element", "type_into", "press_key", "wait", "scroll_to",
   "select_option", "read_text", "go_back", "go_forward", "refresh", "close_tab"]

/-- `parsed.transaction_id = transactionId || parsed.transaction_id` (line 591). -/
def withTid (p : PlanObj) (tid : Option String) : PlanObj :=
  { p with transaction_id := if jsFalsyStr tid then p.transaction_id else tid }

/-- How handleChatbotResponse disposes of a parsed plan: a validation error
report, a safety block, or the go-ahead with the browser/desktop partition.
The parse-failure branch (extractJSON returning null) happens before this. -/
inductive PipelineOutcome where
  | validationError (errors : List String)
  | blocked (violations : List String)
  | proceed (browserSteps desktopSteps : List Step)

/-- handleChatbotResponse from the point where a JSON object has been parsed
(lines 590–651): stamp the transaction id, validate, run the safety layer, and
either stop with an error/block status or hand the partitioned steps on for
execution. -/
def processChatbotResponse (genId : String) (transactionId : Option String)
    (parsed : PlanObj) : PipelineOutcome :=
  let v := validatePlan genId (withTid parsed transactionId)
  if v.valid then
    match v.plan with
    | none => PipelineOutcome.validationError v.errors
    | some plan =>
      let sr := runSafetyCheck plan
      if sr.safe then
        let steps := sr.plan.steps.getD []
        PipelineOutcome.proceed
          (steps.filter (fun s => BROWSER_ACTIONS.contains (s.action.getD "")))
          (steps.filter (fun s => !BROWSER_ACTIONS.contains (s.action.getD "")))
      else PipelineOutcome.blocked sr.violations
  else PipelineOutcome.validationError v.errors

-- ── executeBrowserPlan: the step-execution loop ──────────────

/-- Observable events of one executeBrowserPlan run, in emission order.
`stepStarted i` is the dispatch of step `i` (the status/step broadcast),
`stepCompleted i ok` the step_complete broadcast (`ok = false` when the step
threw and was caught), `killedAt i total` the 'killed' status whose message is
"Execution stopped at step i+1/total", `completed total` the terminal
'completed' result carrying `steps_executed = total`. -/
inductive ExecEvent where
  | stepStarted (i : Nat)
  | stepCompleted (i : Nat) (success : Bool)
  | killedAt (i : Nat) (total : Nat)
  | completed (total : Nat)
deriving Repr, DecidableEq

/-- The for-loop of executeBrowserPlan (lines 663–951), from index `i` with
`remaining = total - i` iterations left.  `kill i` is the value of the global
`killSwitchActive` at the step-`i` boundary check; `stepOk i` tells whether the
dispatch of step `i` runs without throwing (a throw is caught and the loop
continues).  Returns the emitted events and the final value of the global
`currentExecution`, which both exit paths null out. -/
def execFrom (kill stepOk : Nat → Bool) (total : Nat) :
    Nat → Nat → List ExecEvent × Option Nat
  | _, 0 => ([ExecEvent.completed total], none)
  | i, remaining + 1 =>
    if kill i then ([ExecEvent.killedAt i total], none)
    else
      let rest := execFrom kill stepOk total (i + 1) remaining
      (ExecEvent.stepStarted i :: ExecEvent.stepCompleted i (stepOk i) :: rest.1, rest.2)

/-- One whole executeBrowserPlan run over `steps`. -/
def executeBrowserPlanModel (kill stepOk : Nat → Bool) (steps : List Step) :
    List ExecEvent × Option Nat :=
  execFrom kill stepOk steps.length 0 steps.length

/-- The per-step dispatch trace of `count` consecutive steps starting at `i`:
each step is started and then reported complete with its success flag. -/
def stepTrace (stepOk : Nat → Bool) : Nat → Nat → List ExecEvent
  | _, 0 => []
  | i, count + 1 =>
    ExecEvent.stepStarted i :: ExecEvent.stepCompleted i (stepOk i) ::
      stepTrace stepOk (i + 1) count

-- ── Trigger rules (checkRulesAgainstUrl) ─────────────────────

/-- RULE_COOLDOWN_MS (line 22). -/
def RULE_COOLDOWN_MS : Nat := 30000

/-- A rule criterion: `{ type, value }`. -/
structure Criteria where
  ctype : String
  value : String
deriving Repr, DecidableEq

/-- A trigger rule as registered from the controller. -/
structure Rule where
  id : Option String
  criteria : Option Criteria
deriving Repr, DecidableEq

/-- Per-rule debounce state: `{ active, lastTriggered }`. -/
structure RuleState where
  active : Bool
  lastTriggered : Nat
deriving Repr, DecidableEq

/-- `triggeredRulesState`: a JS object keyed by rule id, i.e. an insertion-
ordered association list with unique keys. -/
abbrev StateMap := List (String × RuleState)

/-- Property-read `triggeredRulesState[id]`. -/
def lookupState : StateMap → String → Option RuleState
  | [], _ => none
  | p :: rest, k => if p.1 = k then some p.2 else lookupState rest k

/-- Property-write `triggeredRulesState[id] = v` (updates in place, appends a
new key at the end, matching JS object key order). -/
def setState : StateMap → String → RuleState → StateMap
  | [], k, v => [(k, v)]
  | p :: rest, k, v => if p.1 = k then (k, v) :: rest else p :: setState rest k v

/-- Does the observation (url, category) match a criterion?  `category`:
exact equality; `url_contains`: case-insensitive substring of the URL;
any other type matches nothing. -/
def matchesCrit (c : Criteria) (url category : String) : Bool :=
  if c.ctype = "category" then category == c.value
  else if c.ctype = "url_contains" then jsIncludes (lowerStr url) (lowerStr c.value)
  else false

/-- Accumulator of the first loop of checkRulesAgainstUrl: the evolving state
map, the ids passed to fireRuleTrigger (in order), and matchedRuleIds. -/
structure Phase1Acc where
  state : StateMap
  fired : List String
  matched : List String
deriving Repr, DecidableEq

/-- The loop body of checkRulesAgainstUrl for one rule (lines 240–274):
guard on id/criteria, match, then first-match / still-active / cooldown
branching on the rule's debounce state. -/
def processRule (url category : String) (now : Nat) (acc : Phase1Acc) (r : Rule) :
    Phase1Acc :=
  match r.id, r.criteria with
  | some i, some c =>
    if i = "" then acc
    else if matchesCrit c url category then
      let matched := acc.matched ++ [i]
      match lookupState acc.state i with
      | none =>
        { state := setState acc.state i ⟨true, now⟩
          fired := acc.fired ++ [i]
          matched := matched }
      | some s =>
        if s.active then { acc with matched := matched }
        else if RULE_COOLDOWN_MS ≤ now - s.lastTriggered then
          { state := setState acc.state i ⟨true, now⟩
            fired := acc.fired ++ [i]
            matched := matched }
        else { acc with matched := matched }
    else acc
  | _, _ => acc

/-- One entry of the second loop of checkRulesAgainstUrl: an entry whose rule
id did not match this observation loses its active flag. -/
def deactivateEntry (matched : List String) (p : String × RuleState) :
    String × RuleState :=
  if p.1 ∈ matched then p
  else if p.2.active then (p.1, ⟨false, p.2.lastTriggered⟩) else p

/-- The second loop of checkRulesAgainstUrl (lines 277–283): every stateful
rule that did not match this observation goes inactive. -/
def markInactive (matched : List String) (m : StateMap) : StateMap :=
  m.map (deactivateEntry matched)

/-- checkRulesAgainstUrl (lines 234–283): returns the new triggeredRulesState
and the ids fired.  With no registered rules it returns immediately. -/
def checkRulesModel (rules : List Rule) (url category : String) (now : Nat)
    (st : StateMap) : StateMap × List String :=
  if rules.isEmpty then (st, [])
  else
    let acc := rules.foldl (processRule url category now) ⟨st, [], []⟩
    (markInactive acc.matched acc.state, acc.fired)

-- ── Orchestrator state, ledger, kill switch, dispatch ────────

/-- The module-level mutable state of the background worker that the claims
concern: the kill-switch flag, the rule set with its debounce state, and the
transaction-dedup ledger (`processedTxIds`, a JS Set in insertion order). -/
structure OrchState where
  killSwitchActive : Bool
  registeredRules : List Rule
  triggeredRulesState : StateMap
  processedTxIds : List String
deriving Repr, DecidableEq

/-- `processedTxIds.add(id)` followed by
`if (processedTxIds.size > 50) processedTxIds.delete(oldest)`
(lines 407–408): Set add is a no-op on a present element; beyond 50 the
oldest (first-inserted) id is evicted. -/
def ledgerAdd (l : List String) (x : String) : List String :=
  let l1 := if l.contains x then l else l ++ [x]
  if l1.length > 50 then l1.drop 1 else l1

/-- The payload of an execute_prompt request. -/
structure PromptPayload where
  prompt : Option String
  text : Option String
  transaction_id : Option String
  transactionId : Option String
deriving Repr, DecidableEq

/-- `payload?.transaction_id || payload?.transactionId || crypto.randomUUID()`
(line 401); `genId` stands for the generated UUID. -/
def txidOf (genId : String) (p : PromptPayload) : String :=
  match jsOrStr p.transaction_id p.transactionId with
  | some t => if t = "" then genId else t
  | none => genId

/-- How handlePromptExecution disposes of a request before the planning
round-trip: refused by the kill switch, refused for an empty prompt, ignored
as a duplicate transaction, or accepted (prompt sent off for planning). -/
inductive PromptOutcome where
  | refusedKilled
  | refusedNoPrompt
  | ignoredDuplicate (txid : String)
  | accepted (txid : String)
deriving Repr, DecidableEq

/-- handlePromptExecution (lines 388–410), up to the point where the accepted
prompt is forwarded to the chatbot: kill-switch gate, prompt presence check,
transaction dedup against the bounded ledger. -/
def handlePromptExecutionModel (genId : String) (st : OrchState)
    (p : PromptPayload) : PromptOutcome × OrchState :=
  if st.killSwitchActive then (PromptOutcome.refusedKilled, st)
  else if jsFalsyStr (jsOrStr p.prompt p.text) then (PromptOutcome.refusedNoPrompt, st)
  else
    let txid := txidOf genId p
    if st.processedTxIds.contains txid then (PromptOutcome.ignoredDuplicate txid, st)
    else (PromptOutcome.accepted txid,
          { st with processedTxIds := ledgerAdd st.processedTxIds txid })

/-- handleRegisterTriggers (lines 211–225): a non-array payload is logged and
ignored; an array replaces the rule set and resets all debounce state. -/
def handleRegisterTriggersModel (st : OrchState) (rules : Option (List Rule)) :
    OrchState :=
  match rules with
  | none => st
  | some rs => { st with registeredRules := rs, triggeredRulesState := [] }

/-- handleKillSwitch (lines 1372–1381): sets the sticky flag. -/
def handleKillSwitchModel (st : OrchState) : OrchState :=
  { st with killSwitchActive := true }

/-- Inbound desktop messages, by the dispatch switch of handleDesktopMessage
(lines 299–328). -/
inductive DesktopMsg where
  | connectionAck
  | pong
  | executePrompt (payload : PromptPayload)
  | registerTriggers (rules : Option (List Rule))
  | killSwitchCmd
  | unknown (t : String)

/-- handleDesktopMessage's effect on the orchestrator state (`genId` is the
UUID generated for an id-less execute_prompt). -/
def handleDesktopMessageModel (genId : String) (st : OrchState) :
    DesktopMsg → OrchState
  | DesktopMsg.executePrompt p => (handlePromptExecutionModel genId st p).2
  | DesktopMsg.registerTriggers rs => handleRegisterTriggersModel st rs
  | DesktopMsg.killSwitchCmd => handleKillSwitchModel st
  | _ => st

-- ── WebSocket reconnect backoff ──────────────────────────────

/-- MAX_RECONNECT_ATTEMPTS (line 11). -/
def MAX_RECONNECT_ATTEMPTS : Nat := 50

/-- BASE_RECONNECT_DELAY in ms (line 12).  Delays are modelled over ℚ, which
coincides with the JS double arithmetic on every value this computation
produces below its 30000 ceiling. -/
def BASE_RECONNECT_DELAY : ℚ := 2000

/-- scheduleReconnect (lines 120–130): past the attempt cap nothing is
scheduled and the counter stays put; otherwise the alarm delay is
`min(BASE * 1.5^attempts, 30000)` and the counter increments. -/
def scheduleReconnectModel (attempts : Nat) : Option ℚ × Nat :=
  if attempts ≥ MAX_RECONNECT_ATTEMPTS then (none, attempts)
  else (some (min (BASE_RECONNECT_DELAY * (1.5 : ℚ) ^ attempts) 30000), attempts + 1)

/-- The reconnect-attempt counter after `n` consecutive scheduleReconnect
calls following a reset to 0. -/
def attemptsAfter : Nat → Nat
  | 0 => 0
  | n + 1 => (scheduleReconnectModel (attemptsAfter n)).2

/-- The connection client state the reconnect logic reads and writes. -/
structure WsClient where
  reconnectAttempts : Nat
deriving Repr, DecidableEq

/-- The `ws.onopen` handler (lines 81–88) resets the attempt counter. -/
def wsOnOpen (c : WsClient) : WsClient :=
  { c with reconnectAttempts := 0 }

-- ── Auxiliary definitions used by the proofs ─────────────────

/-- The last `n` elements of a list (the ledger's retention window). -/
def lastN (n : Nat) (l : List String) : List String :=
  l.drop (l.length - n)

/-- The id under which a rule participates in the trigger loop: present
exactly when the `!id || !criteria` guard passes. -/
def ruleKey (r : Rule) : Option String :=
  match r.id, r.criteria with
  | some i, some _ => if i = "" then none else some i
  | _, _ => none

-- ── Concrete fixtures for witnesses and counterexamples ──────

/-- A benign step that arrives already marked 'blocked'. -/
def c1Step : Step :=
  ⟨some "wait", some (Json.obj [("ms", Json.num 500)]), some "blocked"⟩

/-- A plan that validates although its only step is pre-marked 'blocked'. -/
def c1Plan : PlanObj := ⟨some "txn-1", some [c1Step], none⟩

/-- A step whose params serialization contains the keyword "delete". -/
def c1wStep : Step :=
  ⟨some "click_element", some (Json.obj [("target", Json.str "Delete account")]), none⟩

/-- A plan with a destructive-keyword hit. -/
def c1wPlan : PlanObj := ⟨some "txn-2", some [c1wStep], none⟩

/-- C2 fixture: benign pre-blocked step. -/
def c2Step : Step :=
  ⟨some "wait", some (Json.obj [("ms", Json.num 250)]), some "blocked"⟩

/-- C2 fixture plan. -/
def c2Plan : PlanObj := ⟨some "txn-3", some [c2Step], none⟩

/-- C4 fixture: a well-formed step. -/
def c4Step : Step := ⟨some "wait", some (Json.obj [("ms", Json.num 100)]), none⟩

/-- C4 fixture plan (transaction id absent, to exercise synthesis). -/
def c4Plan : PlanObj := ⟨none, some [c4Step], none⟩

/-- C10 fixture: step with a missing action. -/
def c10s1 : Step := ⟨none, some (Json.obj []), none⟩

/-- C10 fixture: step with an unknown action and bad params. -/
def c10s2 : Step := ⟨some "fly", none, none⟩

/-- C10 fixture plan. -/
def c10Plan : PlanObj := ⟨some "txn-4", some [c10s1, c10s2], none⟩

/-- C6 fixture rule: fire on the 'social' category. -/
def c6Rule : Rule := ⟨some "r1", some ⟨"category", "social"⟩⟩

/-- C8 witness ledger content: fifty distinct ids. -/
def c8Ids : List String := (List.range 50).map toString

/-- C3 witness state: kill switch is on. -/
def c3St : OrchState := ⟨true, [], [], []⟩

/-- C3 witness prompt payload. -/
def c3Payload : PromptPayload := ⟨some "open youtube", none, none, none⟩

-- ══════════════════════════════════════════════════════════════
-- Theorems
-- ══════════════════════════════════════════════════════════════

-- ── C7: rule-set swap resets all match state ─────────────────

/-- C7: replacing the rule set via register_triggers with a rules array
installs the new rules and resets the per-rule match state map to empty; no
active flag or lastTriggeredAt survives (every lookup on the new map misses),
so a subsequent evaluation behaves exactly as from a fresh state. -/
theorem C7_ruleset_swap_resets_state (st : OrchState) (rules : List Rule) :
    (handleRegisterTriggersModel st (some rules)).registeredRules = rules ∧
    (handleRegisterTriggersModel st (some rules)).triggeredRulesState = [] ∧
    (∀ id, lookupState (handleRegisterTriggersModel st (some rules)).triggeredRulesState id
       = none) ∧
    (∀ url category now,
       checkRulesModel rules url category now
           (handleRegisterTriggersModel st (some rules)).triggeredRulesState
         = checkRulesModel rules url category now []) :=
  ⟨rfl, rfl, fun _ => rfl, fun _ _ _ => rfl⟩

-- ── C9: reconnect backoff schedule ───────────────────────────

/-- The attempt counter after n consecutive schedule calls from a reset. -/
theorem attemptsAfter_eq_min (n : Nat) : attemptsAfter n = min n 50 := by
  induction n with
  | zero => rfl
  | succ n ih =>
    unfold attemptsAfter scheduleReconnectModel
    rw [ih]
    unfold MAX_RECONNECT_ATTEMPTS
    split
    · omega
    · simp only []
      omega

/-- C9: after the counter was reset by a successful connection, the k-th
consecutive reconnect attempt (1 ≤ k ≤ 50) is scheduled with delay
min(2000·1.5^(k-1), 30000) and leaves the counter at k; from the 50th attempt
on no further reconnect is scheduled; ws.onopen resets the counter to 0. -/
theorem C9_reconnect_backoff (k : Nat) (h1 : 1 ≤ k) (h2 : k ≤ 50) :
    (scheduleReconnectModel (attemptsAfter (k - 1))).1
        = some (min (2000 * (1.5 : ℚ) ^ (k - 1)) 30000) ∧
    (scheduleReconnectModel (attemptsAfter (k - 1))).2 = k ∧
    (∀ j, 50 ≤ j → (scheduleReconnectModel (attemptsAfter j)).1 = none) ∧
    (∀ c, (wsOnOpen c).reconnectAttempts = 0) := by
  have hk : attemptsAfter (k - 1) = k - 1 := by
    rw [attemptsAfter_eq_min]; omega
  have hklt : ¬ (k - 1 ≥ MAX_RECONNECT_ATTEMPTS) := by
    unfold MAX_RECONNECT_ATTEMPTS; omega
  refine ⟨?_, ?_, ?_, fun _ => rfl⟩
  · rw [hk]
    unfold scheduleReconnectModel
    rw [if_neg hklt]
    rfl
  · rw [hk]
    unfold scheduleReconnectModel
    rw [if_neg hklt]
    simp only []
    omega
  · intro j hj
    have : attemptsAfter j = 50 := by rw [attemptsAfter_eq_min]; omega
    rw [this]
    unfold scheduleReconnectModel
    rw [if_pos (by unfold MAX_RECONNECT_ATTEMPTS; omega)]

/-- C9 witness: the third attempt is scheduled with delay 4500 ms. -/
theorem C9_reconnect_backoff_w :
    (1 ≤ 3 ∧ 3 ≤ 50) ∧
    (scheduleReconnectModel (attemptsAfter 2)).1
        = some (min (2000 * (1.5 : ℚ) ^ 2) 30000) :=
  ⟨⟨by decide, by decide⟩, (C9_reconnect_backoff 3 (by decide) (by decide)).1⟩

-- ── Safety-layer helper lemmas ───────────────────────────────

/-- A step with no keyword hit contributes no violation messages. -/
theorem stepViolations_of_clean {s : Step} (h : stepHits s = []) (i : Nat) :
    stepViolations i s = [] := by
  unfold stepViolations
  rw [h]
  rfl

/-- The violation list is empty iff every step is hit-free. -/
theorem violationsFrom_eq_nil_iff (l : List Step) :
    ∀ k, violationsFrom k l = [] ↔ ∀ s ∈ l, stepHits s = [] := by
  induction l with
  | nil => intro k; simp [violationsFrom]
  | cons s rest ih =>
    intro k
    simp only [violationsFrom, List.append_eq_nil, List.mem_cons]
    constructor
    · rintro ⟨h1, h2⟩ t (rfl | ht)
      · unfold stepViolations at h1
        rcases hh : stepHits t with _ | ⟨a, as⟩
        · rfl
        · rw [hh] at h1; simp at h1
      · exact ((ih (k + 1)).mp h2) t ht
    · intro h
      refine ⟨stepViolations_of_clean (h s (Or.inl rfl)) k, ?_⟩
      exact (ih (k + 1)).mpr (fun t ht => h t (Or.inr ht))

/-- A hit-free step that arrived pre-marked 'blocked' passes through the
safety update unchanged. -/
theorem applySafetyToStep_of_clean_blocked {s : Step}
    (hclean : stepHits s = []) (hb : s.safety_check = some "blocked") :
    applySafetyToStep s = s := by
  unfold applySafetyToStep
  rw [hclean]
  simp [hb]

-- ── C2: a pre-blocked clean step survives and does not block ──

/-- C2: if a step reaches runSafetyCheck already marked 'blocked' although its
serialized params contain no denylisted keyword (and, as the claimed safe=true
outcome presupposes, no other step contains one either), the step stays
'blocked', contributes no violation, and the plan is reported safe — so a
safe=true result does not guarantee that every returned step is 'passed'. -/
theorem C2_preblocked_step_stays_blocked
    (p : PlanObj) (l : List Step) (i : Nat) (s : Step)
    (hl : p.steps = some l) (hs : l.get? i = some s)
    (hb : s.safety_check = some "blocked")
    (hclean : ∀ t ∈ l, stepHits t = []) :
    (runSafetyCheck p).safe = true ∧
    (runSafetyCheck p).violations = [] ∧
    ((runSafetyCheck p).plan.steps.getD []).get? i = some s ∧
    ¬ (∀ t ∈ (runSafetyCheck p).plan.steps.getD [], t.safety_check = some "passed") := by
  have hvnil : violationsFrom 0 l = [] := (violationsFrom_eq_nil_iff l 0).mpr hclean
  have hgd : p.steps.getD [] = l := by rw [hl]; rfl
  have hres : ((runSafetyCheck p).plan.steps.getD []) = l.map applySafetyToStep := by
    unfold runSafetyCheck
    simp only [hgd]
    rfl
  have hsmem : s ∈ l := List.get?_mem hs
  have hself : applySafetyToStep s = s :=
    applySafetyToStep_of_clean_blocked (hclean s hsmem) hb
  refine ⟨?_, ?_, ?_, ?_⟩
  · unfold runSafetyCheck
    simp only [hgd, hvnil]
    rfl
  · unfold runSafetyCheck
    simp only [hgd, hvnil]
  · rw [hres, List.get?_map, hs, Option.map_some', hself]
  · intro hall
    have : (applySafetyToStep s).safety_check = some "passed" := by
      refine hall _ ?_
      rw [hres]
      exact List.mem_map_of_mem _ hsmem
    rw [hself, hb] at this
    simp at this

/-- C2 witness: a concrete single-step plan whose pre-blocked benign step
survives a safe verdict. -/
theorem C2_preblocked_step_stays_blocked_w :
    stepHits c2Step = [] ∧
    (runSafetyCheck c2Plan).safe = true ∧
    ¬ (∀ t ∈ (runSafetyCheck c2Plan).plan.steps.getD [], t.safety_check = some "passed") := by
  have h := C2_preblocked_step_stays_blocked c2Plan [c2Step] 0 c2Step rfl rfl rfl
    (by intro t ht; rcases List.mem_singleton.mp ht with rfl; rfl)
  exact ⟨rfl, h.1, h.2.2.2⟩

-- ── C1: the destructive-keyword safety scan ──────────────────

/-- Each step contributes exactly one violation message per keyword hit. -/
theorem violationsFrom_length (l : List Step) :
    ∀ k, (violationsFrom k l).length = (l.map (fun s => (stepHits s).length)).sum := by
  induction l with
  | nil => intro k; rfl
  | cons s rest ih =>
    intro k
    simp only [violationsFrom, List.length_append, List.map_cons, List.sum_cons,
      stepViolations, List.length_map, ih (k + 1)]

/-- A step with a keyword hit ends up marked 'blocked'. -/
theorem applySafetyToStep_of_hit {s : Step} (h : stepHits s ≠ []) :
    (applySafetyToStep s).safety_check = some "blocked" := by
  rcases hh : stepHits s with _ | ⟨a, as⟩
  · exact absurd hh h
  · unfold applySafetyToStep
    rw [hh]
    simp

/-- A hit-free step not already marked 'blocked' ends up 'passed'. -/
theorem applySafetyToStep_of_clean {s : Step} (h : stepHits s = [])
    (hnb : s.safety_check ≠ some "blocked") :
    (applySafetyToStep s).safety_check = some "passed" := by
  unfold applySafetyToStep
  rw [h]
  simp [hnb]

/-- The pipeline hands steps to the executors only when the safety layer
reported the validated plan safe. -/
theorem processChatbotResponse_proceed_safe
    (genId : String) (tid : Option String) (parsed : PlanObj) (b d : List Step)
    (h : processChatbotResponse genId tid parsed = PipelineOutcome.proceed b d) :
    ∃ vp, (validatePlan genId (withTid parsed tid)).plan = some vp ∧
          (runSafetyCheck vp).safe = true := by
  unfold processChatbotResponse at h
  by_cases hv : (validatePlan genId (withTid parsed tid)).valid = true
  · rw [if_pos hv] at h
    rcases hp : (validatePlan genId (withTid parsed tid)).plan with _ | vp
    · rw [hp] at h
      exact PipelineOutcome.noConfusion h
    · rw [hp] at h
      dsimp only at h
      by_cases hsafe : (runSafetyCheck vp).safe = true
      · exact ⟨vp, rfl, hsafe⟩
      · rw [if_neg hsafe] at h
        exact PipelineOutcome.noConfusion h
  · rw [if_neg hv] at h
    exact PipelineOutcome.noConfusion h

/-- C1 (amended): the plan is unsafe exactly when some step's lowercased
serialized params contain a destructive keyword; each hit contributes one
violation; hit steps are marked 'blocked'; hit-free steps are marked 'passed'
unless they already carried safety_check = 'blocked', in which case they are
left untouched; and the pipeline starts executing only plans the safety layer
reported safe, so any violation blocks the whole plan's execution. -/
theorem C1_destructive_keyword_scan (p : PlanObj) (l : List Step)
    (hl : p.steps = some l) :
    ((runSafetyCheck p).safe = false ↔ ∃ s ∈ l, stepHits s ≠ []) ∧
    (runSafetyCheck p).violations.length = (l.map (fun s => (stepHits s).length)).sum ∧
    (runSafetyCheck p).plan.steps = some (l.map applySafetyToStep) ∧
    (∀ s : Step, stepHits s ≠ [] → (applySafetyToStep s).safety_check = some "blocked") ∧
    (∀ s : Step, stepHits s = [] → s.safety_check ≠ some "blocked" →
       (applySafetyToStep s).safety_check = some "passed") ∧
    (∀ s : Step, stepHits s = [] → s.safety_check = some "blocked" →
       applySafetyToStep s = s) ∧
    (∀ genId tid parsed b d,
       processChatbotResponse genId tid parsed = PipelineOutcome.proceed b d →
       ∃ vp, (validatePlan genId (withTid parsed tid)).plan = some vp ∧
             (runSafetyCheck vp).safe = true) := by
  have hgd : p.steps.getD [] = l := by rw [hl]; rfl
  have hsafe : (runSafetyCheck p).safe = (violationsFrom 0 l).isEmpty := by
    unfold runSafetyCheck
    simp only [hgd]
  refine ⟨?_, ?_, ?_, ?_, ?_, ?_, ?_⟩
  · rw [hsafe]
    constructor
    · intro hfalse
      by_contra hno
      push_neg at hno
      rw [(violationsFrom_eq_nil_iff l 0).mpr hno] at hfalse
      exact absurd hfalse (by decide)
    · rintro ⟨s, hsmem, hne⟩
      rcases hv : violationsFrom 0 l with _ | _
      · exact absurd (((violationsFrom_eq_nil_iff l 0).mp hv) s hsmem) hne
      · rfl
  · unfold runSafetyCheck
    simp only [hgd]
    exact violationsFrom_length l 0
  · unfold runSafetyCheck
    simp only [hgd]
  · exact fun s h => applySafetyToStep_of_hit h
  · exact fun s h hnb => applySafetyToStep_of_clean h hnb
  · exact fun s h hb => applySafetyToStep_of_clean_blocked h hb
  · exact processChatbotResponse_proceed_safe

/-- C1 counterexample: a plan that validates with a benign step pre-marked
'blocked'.  runSafetyCheck reports it safe, and the hit-free step is left
'blocked' rather than being marked 'passed' — and, being safe, the plan would
proceed to execution despite containing a blocked step. -/
theorem C1_destructive_keyword_scan_cx :
    (validatePlan "gen-1" c1Plan).valid = true ∧
    (validatePlan "gen-1" c1Plan).plan = some c1Plan ∧
    stepHits c1Step = [] ∧
    (runSafetyCheck c1Plan).safe = true ∧
    ((runSafetyCheck c1Plan).plan.steps.getD []).map Step.safety_check
        = [some "blocked"] ∧
    (some "blocked" : Option String) ≠ some "passed" :=
  ⟨rfl, rfl, rfl, rfl, rfl, by simp⟩

/-- C1 witness: a concrete plan whose step params mention "Delete account" is
reported unsafe. -/
theorem C1_destructive_keyword_scan_w :
    c1wPlan.steps = some [c1wStep] ∧
    ((runSafetyCheck c1wPlan).safe = false ↔ ∃ s ∈ [c1wStep], stepHits s ≠ []) ∧
    (runSafetyCheck c1wPlan).safe = false :=
  ⟨rfl, (C1_destructive_keyword_scan c1wPlan [c1wStep] rfl).1, rfl⟩

-- ── validatePlan helper lemmas ───────────────────────────────

/-- Every allowed action name is a nonempty string. -/
theorem allowed_action_ne_empty (a : String)
    (h : ALLOWED_ACTIONS.contains a = true) : a ≠ "" := by
  intro he
  rw [he] at h
  exact absurd h (by decide)

/-- A step with a recognized action and object params produces no errors. -/
theorem stepErrors_of_good (i : Nat) (s : Step)
    (ha : ∃ a, s.action = some a ∧ ALLOWED_ACTIONS.contains a = true)
    (hp : isObjectParams s.params = true) : stepErrors i s = [] := by
  obtain ⟨a, hsa, hca⟩ := ha
  have hne : a ≠ "" := allowed_action_ne_empty a hca
  have hmem : a ∈ ALLOWED_ACTIONS := List.mem_of_elem_eq_true hca
  unfold stepErrors
  rw [hsa]
  simp [jsFalsyStr, hne, hmem, hp]

/-- No errors accumulate over a list of well-formed steps. -/
theorem errorsFrom_of_good (l : List Step)
    (h : ∀ s ∈ l, (∃ a, s.action = some a ∧ ALLOWED_ACTIONS.contains a = true) ∧
         isObjectParams s.params = true) :
    ∀ k, errorsFrom k l = [] := by
  induction l with
  | nil => intro k; rfl
  | cons s rest ih =>
    intro k
    have hs := h s (List.mem_cons_self s rest)
    simp only [errorsFrom, stepErrors_of_good k s hs.1 hs.2, List.nil_append]
    exact ih (fun t ht => h t (List.mem_cons_of_mem s ht)) (k + 1)

/-- validatePlan on a plan whose step list is within bounds and whose steps
are all well-formed: valid, with the normalized plan carried through. -/
theorem validatePlan_of_good (genId : String) (p : PlanObj) (l : List Step)
    (hl : jsPlanSteps p = some l) (h1 : 1 ≤ l.length) (h2 : l.length ≤ MAX_STEPS)
    (hgood : ∀ s ∈ l, (∃ a, s.action = some a ∧ ALLOWED_ACTIONS.contains a = true) ∧
             isObjectParams s.params = true) :
    (validatePlan genId p).valid = true ∧
    (validatePlan genId p).plan = some
      { p with steps := some l,
               transaction_id := some (if jsFalsyStr p.transaction_id then genId
                                       else p.transaction_id.getD "") } := by
  unfold validatePlan
  rw [hl]
  dsimp only
  rw [if_neg (by omega : ¬ l.length > MAX_STEPS),
      if_neg (by omega : ¬ l.length = 0),
      errorsFrom_of_good l hgood 0]
  exact ⟨rfl, rfl⟩

/-- validatePlan on a plan with an empty or oversized step list: invalid. -/
theorem validatePlan_of_badlen (genId : String) (p : PlanObj) (l : List Step)
    (hl : jsPlanSteps p = some l) (hlen : l.length = 0 ∨ MAX_STEPS < l.length) :
    (validatePlan genId p).valid = false ∧ (validatePlan genId p).plan = none := by
  unfold validatePlan
  rw [hl]
  dsimp only
  rcases hlen with h0 | hbig
  · rw [if_neg (by omega : ¬ l.length > MAX_STEPS), if_pos h0]
    exact ⟨rfl, rfl⟩
  · rw [if_pos (by omega : l.length > MAX_STEPS)]
    exact ⟨rfl, rfl⟩

/-- Stamping the transaction id leaves the step arrays untouched. -/
theorem jsPlanSteps_withTid (p : PlanObj) (tid : Option String) :
    jsPlanSteps (withTid p tid) = jsPlanSteps p := rfl

-- ── C4: step-count bounds and transaction-id synthesis ───────

/-- C4: a plan whose steps-or-actions array has between 1 and 10 steps, all
with recognized actions and object params, validates with a non-empty
transaction id (the generated one when the plan carried none); a plan with 0
or more than 10 steps is rejected with plan = null, and the pipeline never
reaches execution for it. -/
theorem C4_validatePlan_bounds (genId : String) (p : PlanObj) (l : List Step)
    (hg : genId ≠ "") (hl : jsPlanSteps p = some l) :
    (1 ≤ l.length → l.length ≤ MAX_STEPS →
      (∀ s ∈ l, (∃ a, s.action = some a ∧ ALLOWED_ACTIONS.contains a = true) ∧
       isObjectParams s.params = true) →
      (validatePlan genId p).valid = true ∧
      ∃ vp, (validatePlan genId p).plan = some vp ∧
        ∃ t, vp.transaction_id = some t ∧ t ≠ "" ∧
          (jsFalsyStr p.transaction_id = true → t = genId)) ∧
    (l.length = 0 ∨ MAX_STEPS < l.length →
      (validatePlan genId p).valid = false ∧
      (validatePlan genId p).plan = none ∧
      ∀ tid b d, processChatbotResponse genId tid p ≠ PipelineOutcome.proceed b d) := by
  constructor
  · intro h1 h2 hgood
    obtain ⟨hv, hp⟩ := validatePlan_of_good genId p l hl h1 h2 hgood
    refine ⟨hv, _, hp, ?_⟩
    by_cases hf : jsFalsyStr p.transaction_id = true
    · exact ⟨genId, by rw [if_pos hf], hg, fun _ => rfl⟩
    · have hf' : jsFalsyStr p.transaction_id = false := by
        revert hf; cases jsFalsyStr p.transaction_id <;> simp
      rcases ht : p.transaction_id with _ | u
      · rw [ht] at hf'
        exact absurd hf' (by decide)
      · have hfu : jsFalsyStr (some u) = false := ht ▸ hf'
        refine ⟨u, ?_, ?_, ?_⟩
        · rw [if_neg (by rw [hfu]; simp)]
          rfl
        · intro hu
          rw [hu] at hfu
          exact absurd hfu (by decide)
        · intro hcontra
          exact absurd hcontra (by rw [hfu]; simp)
  · intro hlen
    obtain ⟨hv, hp⟩ := validatePlan_of_badlen genId p l hl hlen
    refine ⟨hv, hp, ?_⟩
    intro tid b d hcontra
    have hl' : jsPlanSteps (withTid p tid) = some l := by
      rw [jsPlanSteps_withTid]; exact hl
    obtain ⟨hv', _⟩ := validatePlan_of_badlen genId (withTid p tid) l hl' hlen
    unfold processChatbotResponse at hcontra
    rw [if_neg (by rw [hv']; simp)] at hcontra
    exact PipelineOutcome.noConfusion hcontra

/-- C4 witness: a one-step plan without a transaction id validates and gets
the generated id. -/
theorem C4_validatePlan_bounds_w :
    ("gen-9" : String) ≠ "" ∧
    jsPlanSteps c4Plan = some [c4Step] ∧
    (validatePlan "gen-9" c4Plan).valid = true := by
  have h := (C4_validatePlan_bounds "gen-9" c4Plan [c4Step] (by decide) rfl).1
    (by decide) (by decide)
    (by
      intro s hs
      rcases List.mem_singleton.mp hs with rfl
      exact ⟨⟨"wait", rfl, by decide⟩, rfl⟩)
  exact ⟨by decide, rfl, h.1⟩

-- ── C10: the full per-step error list ────────────────────────

/-- A step contributes an error exactly when its action is missing, its
action is unrecognized, or its params are absent or not an object. -/
theorem stepErrors_ne_nil_iff (i : Nat) (s : Step) :
    stepErrors i s ≠ [] ↔
      (jsFalsyStr s.action = true ∨
       ALLOWED_ACTIONS.contains (s.action.getD "") = false ∨
       isObjectParams s.params = false) := by
  unfold stepErrors
  cases hj : jsFalsyStr s.action <;>
    cases hc : ALLOWED_ACTIONS.contains (s.action.getD "") <;>
      cases hp : isObjectParams s.params <;> simp [hj, hc, hp]

/-- Every error a step contributes appears in the accumulated error list. -/
theorem errorsFrom_mem (l : List Step) :
    ∀ (k i : Nat) (s : Step), l.get? i = some s →
      ∀ e ∈ stepErrors (k + i) s, e ∈ errorsFrom k l := by
  induction l with
  | nil => intro k i s h; cases h
  | cons hd tl ih =>
    intro k i s h e he
    cases i with
    | zero =>
      rcases Option.some.inj h with rfl
      exact List.mem_append_left _ he
    | succ i =>
      have harith : k + (i + 1) = (k + 1) + i := by omega
      rw [harith] at he
      exact List.mem_append_right _ (ih (k + 1) i s h e he)

/-- validatePlan on an in-bounds plan returns the error list of the full
per-step sweep. -/
theorem validatePlan_errors_eq (genId : String) (p : PlanObj) (l : List Step)
    (hl : jsPlanSteps p = some l) (h1 : 1 ≤ l.length) (h2 : l.length ≤ MAX_STEPS) :
    (validatePlan genId p).errors = errorsFrom 0 l := by
  unfold validatePlan
  rw [hl]
  dsimp only
  rw [if_neg (by omega : ¬ l.length > MAX_STEPS), if_neg (by omega : ¬ l.length = 0)]

/-- C10: for an in-bounds plan, every step is inspected: the error list is the
concatenation of each step's errors, a step yields an error exactly when its
action is missing or unrecognized or its params are absent/not an object, and
each such error is present in the returned list (no stop at the first failing
step). -/
theorem C10_full_error_list (genId : String) (p : PlanObj) (l : List Step)
    (hl : jsPlanSteps p = some l) (h1 : 1 ≤ l.length) (h2 : l.length ≤ MAX_STEPS) :
    (validatePlan genId p).errors = errorsFrom 0 l ∧
    ∀ i s, l.get? i = some s →
      ((stepErrors i s ≠ []) ↔
        (jsFalsyStr s.action = true ∨
         ALLOWED_ACTIONS.contains (s.action.getD "") = false ∨
         isObjectParams s.params = false)) ∧
      ∀ e ∈ stepErrors i s, e ∈ (validatePlan genId p).errors := by
  have herr := validatePlan_errors_eq genId p l hl h1 h2
  refine ⟨herr, fun i s hi => ⟨stepErrors_ne_nil_iff i s, fun e he => ?_⟩⟩
  rw [herr]
  have h0 : (0 : Nat) + i = i := by omega
  exact errorsFrom_mem l 0 i s hi e (by rw [h0]; exact he)

/-- C10 witness: a two-step plan with a missing action on step 1 and an
unknown action plus missing params on step 2 yields all three errors. -/
theorem C10_full_error_list_w :
    jsPlanSteps c10Plan = some [c10s1, c10s2] ∧
    (validatePlan "gen-7" c10Plan).errors =
      ["Step 1: missing \"action\" field",
       "Step 2: unknown action \"fly\"",
       "Step 2: missing or invalid \"params\" object"] :=
  ⟨rfl,
   (C10_full_error_list "gen-7" c10Plan [c10s1, c10s2] rfl (by decide) (by decide)).1.trans
     rfl⟩

-- ── Executor trace lemmas ────────────────────────────────────

/-- With the kill switch never set, the run dispatches every step and ends
with the single terminal completed event, clearing the execution. -/
theorem execFrom_nokill (stepOk : Nat → Bool) (total : Nat) :
    ∀ (r i : Nat),
      execFrom (fun _ => false) stepOk total i r
        = (stepTrace stepOk i r ++ [ExecEvent.completed total], none) := by
  intro r
  induction r with
  | zero => intro i; rfl
  | succ r ih =>
    intro i
    simp only [execFrom, Bool.false_eq_true, if_false, ih (i + 1), stepTrace,
      List.cons_append]

/-- A stepStarted event occurs in a dispatch trace exactly for the indices the
trace covers. -/
theorem mem_stepTrace_started (stepOk : Nat → Bool) (j : Nat) :
    ∀ (r i : Nat), ExecEvent.stepStarted j ∈ stepTrace stepOk i r ↔ i ≤ j ∧ j < i + r := by
  intro r
  induction r with
  | zero =>
    intro i
    simp only [stepTrace, List.not_mem_nil, false_iff]
    omega
  | succ r ih =>
    intro i
    simp only [stepTrace, List.mem_cons, ih (i + 1), ExecEvent.stepStarted.injEq,
      reduceCtorEq, false_or]
    omega

/-- Each covered step's completion event, carrying its success flag, occurs in
the dispatch trace. -/
theorem mem_stepTrace_completed (stepOk : Nat → Bool) (j : Nat) :
    ∀ (r i : Nat), i ≤ j → j < i + r →
      ExecEvent.stepCompleted j (stepOk j) ∈ stepTrace stepOk i r := by
  intro r
  induction r with
  | zero => intro i h1 h2; omega
  | succ r ih =>
    intro i h1 h2
    rcases Nat.eq_or_lt_of_le h1 with rfl | hlt
    · exact List.mem_cons_of_mem _ (List.mem_cons_self _ _)
    · exact List.mem_cons_of_mem _ (List.mem_cons_of_mem _ (ih (i + 1) hlt (by omega)))

/-- No terminal completed event occurs inside a dispatch trace. -/
theorem completed_not_mem_stepTrace (stepOk : Nat → Bool) (t : Nat) :
    ∀ (r i : Nat), ExecEvent.completed t ∉ stepTrace stepOk i r := by
  intro r
  induction r with
  | zero => intro i; simp [stepTrace]
  | succ r ih =>
    intro i
    simp only [stepTrace, List.mem_cons, reduceCtorEq, false_or]
    exact ih (i + 1)

/-- If the kill flag first holds at boundary `k` (inside the loop range), the
run dispatches exactly steps `i..k-1` and stops with the killed event. -/
theorem execFrom_killed (kill stepOk : Nat → Bool) (total k : Nat)
    (hk : kill k = true) :
    ∀ (r i : Nat), i ≤ k → k < i + r → (∀ j, i ≤ j → j < k → kill j = false) →
      execFrom kill stepOk total i r
        = (stepTrace stepOk i (k - i) ++ [ExecEvent.killedAt k total], none) := by
  intro r
  induction r with
  | zero => intro i h1 h2; omega
  | succ r ih =>
    intro i h1 h2 hbefore
    rcases Nat.eq_or_lt_of_le h1 with rfl | hlt
    · simp only [execFrom, hk, if_true, Nat.sub_self, stepTrace, List.nil_append]
    · have hki : kill i = false := hbefore i (Nat.le_refl i) hlt
      have harith : k - i = (k - (i + 1)) + 1 := by omega
      simp only [execFrom, hki, Bool.false_eq_true, if_false,
        ih (i + 1) hlt (by omega) (fun j hj1 hj2 => hbefore j (by omega) hj2),
        harith, stepTrace, List.cons_append]

-- ── C5: per-step failure isolation and terminal completion ──

/-- C5: with the kill switch never set during a run of `total` steps, a step
whose dispatch throws is reported as a failed step_complete event while every
step (including all later ones) is still dispatched, and the run ends with
exactly one terminal completed event, emitted last, carrying the total step
count. -/
theorem C5_continue_on_error (stepOk : Nat → Bool) (total k : Nat)
    (hk : k < total) (hfail : stepOk k = false) :
    execFrom (fun _ => false) stepOk total 0 total
        = (stepTrace stepOk 0 total ++ [ExecEvent.completed total], none) ∧
    ExecEvent.stepCompleted k false ∈ stepTrace stepOk 0 total ∧
    (∀ i, i < total → ExecEvent.stepStarted i ∈ stepTrace stepOk 0 total) ∧
    (stepTrace stepOk 0 total ++ [ExecEvent.completed total]).count
        (ExecEvent.completed total) = 1 ∧
    (stepTrace stepOk 0 total ++ [ExecEvent.completed total]).getLast?
        = some (ExecEvent.completed total) := by
  refine ⟨execFrom_nokill stepOk total total 0, ?_, ?_, ?_, ?_⟩
  · have := mem_stepTrace_completed stepOk k total 0 (Nat.zero_le k) (by omega)
    rw [hfail] at this
    exact this
  · intro i hi
    exact (mem_stepTrace_started stepOk i total 0).mpr ⟨Nat.zero_le i, by omega⟩
  · rw [List.count_append,
      List.count_eq_zero.mpr (completed_not_mem_stepTrace stepOk total total 0)]
    simp
  · exact List.getLast?_concat _

/-- C5 witness: a three-step run whose middle step fails still reaches steps 2
and 3 and completes. -/
theorem C5_continue_on_error_w :
    (1 < 3 ∧ (fun i => i != 1) 1 = false) ∧
    execFrom (fun _ => false) (fun i => i != 1) 3 0 3
      = (stepTrace (fun i => i != 1) 0 3 ++ [ExecEvent.completed 3], none) ∧
    ExecEvent.stepCompleted 1 false ∈ stepTrace (fun i => i != 1) 0 3 :=
  ⟨⟨by decide, by decide⟩,
   (C5_continue_on_error (fun i => i != 1) 3 1 (by decide) (by decide)).1,
   (C5_continue_on_error (fun i => i != 1) 3 1 (by decide) (by decide)).2.1⟩

-- ── C3: kill-switch semantics ────────────────────────────────

/-- C3: the kill-switch flag is sticky — no message handler ever clears it —
and a set flag refuses any new execution request up front; if the flag first
becomes visible at the boundary of step `k` of a running `total`-step
execution, the executor dispatches exactly steps 0..k-1 (their trace is
retained, nothing is rolled back), does not start step `k`, emits the killed
status naming step `k` of `total`, and clears the active execution. -/
theorem C3_kill_switch (kill stepOk : Nat → Bool) (total k : Nat)
    (hk : kill k = true) (hbefore : ∀ j, j < k → kill j = false) (hlt : k < total) :
    execFrom kill stepOk total 0 total
        = (stepTrace stepOk 0 k ++ [ExecEvent.killedAt k total], none) ∧
    ExecEvent.stepStarted k ∉ stepTrace stepOk 0 k ∧
    (∀ st m genId, st.killSwitchActive = true →
       (handleDesktopMessageModel genId st m).killSwitchActive = true) ∧
    (∀ st p genId, st.killSwitchActive = true →
       handlePromptExecutionModel genId st p = (PromptOutcome.refusedKilled, st)) := by
  refine ⟨?_, ?_, ?_, ?_⟩
  · have := execFrom_killed kill stepOk total k hk total 0 (Nat.zero_le k) (by omega)
      (fun j _ hj2 => hbefore j hj2)
    simpa using this
  · intro hmem
    have := (mem_stepTrace_started stepOk k k 0).mp hmem
    omega
  · intro st m genId hflag
    cases m with
    | executePrompt p =>
      unfold handleDesktopMessageModel handlePromptExecutionModel
      rw [hflag]
      simpa using hflag
    | registerTriggers rs =>
      cases rs with
      | none => exact hflag
      | some l => exact hflag
    | killSwitchCmd => rfl
    | connectionAck => exact hflag
    | pong => exact hflag
    | unknown t => exact hflag
  · intro st p genId hflag
    unfold handlePromptExecutionModel
    rw [hflag]
    rfl

/-- C3 witness: flag set at the step-1 boundary of a three-step run halts the
run there with the killed status, and a kill-switched state refuses a fresh
prompt. -/
theorem C3_kill_switch_w :
    ((fun i => decide (1 ≤ i)) 1 = true ∧ 1 < 3) ∧
    execFrom (fun i => decide (1 ≤ i)) (fun _ => true) 3 0 3
      = (stepTrace (fun _ => true) 0 1 ++ [ExecEvent.killedAt 1 3], none) ∧
    handlePromptExecutionModel "gen-3" c3St c3Payload
      = (PromptOutcome.refusedKilled, c3St) :=
  ⟨⟨by decide, by decide⟩,
   (C3_kill_switch (fun i => decide (1 ≤ i)) (fun _ => true) 3 1 (by decide)
     (fun j hj => by simp [Nat.lt_one_iff.mp hj]) (by decide)).1,
   (C3_kill_switch (fun i => decide (1 ≤ i)) (fun _ => true) 3 1 (by decide)
     (fun j hj => by simp [Nat.lt_one_iff.mp hj]) (by decide)).2.2.2 c3St c3Payload
     "gen-3" rfl⟩

-- ── Ledger lemmas ────────────────────────────────────────────

/-- The ledger never grows past 50 ids. -/
theorem ledgerAdd_length (m : List String) (y : String) (h : m.length ≤ 50) :
    (ledgerAdd m y).length ≤ 50 := by
  unfold ledgerAdd
  dsimp only
  split <;> split <;> simp_all [List.length_drop, List.length_append] <;> omega

/-- Inserting a fresh id keeps the most recent 50 of the appended sequence. -/
theorem ledgerAdd_eq_lastN (m : List String) (y : String)
    (hy : m.contains y = false) (hlen : m.length ≤ 50) :
    ledgerAdd m y = lastN 50 (m ++ [y]) := by
  unfold ledgerAdd lastN
  rw [hy]
  simp only [Bool.false_eq_true, if_false]
  by_cases hgt : (m ++ [y]).length > 50
  · rw [if_pos hgt, show (m ++ [y]).length - 50 = 1 by simp at hgt ⊢; omega]
  · rw [if_neg hgt, show (m ++ [y]).length - 50 = 0 by simp at hgt ⊢; omega,
      List.drop_zero]

/-- Taking the last `n` again after appending more elements is the same as
taking the last `n` of the whole sequence. -/
theorem lastN_append_absorb (n : Nat) (a b : List String) :
    lastN n (lastN n a ++ b) = lastN n (a ++ b) := by
  unfold lastN
  by_cases h : a.length ≤ n
  · rw [show a.length - n = 0 by omega, List.drop_zero]
  · have hdl : (a.drop (a.length - n)).length = n := by
      rw [List.length_drop]
      omega
    rw [List.drop_append_eq_append_drop, List.drop_append_eq_append_drop,
      List.drop_drop, hdl]
    rw [List.length_append, List.length_append, hdl]
    have h1 : n + b.length - n = b.length := by omega
    have h2 : a.length + b.length - n - a.length = b.length - n := by omega
    have h3 : a.length - n + b.length = a.length + b.length - n := by omega
    rw [h1, h2, h3]

/-- Folding fresh, pairwise-distinct ids into the ledger retains the last 50
of the appended sequence. -/
theorem foldl_ledgerAdd_eq (ids : List String) :
    ∀ l, l.length ≤ 50 → ids.Nodup → (∀ y ∈ ids, y ∉ l) →
      List.foldl ledgerAdd l ids = lastN 50 (l ++ ids) := by
  induction ids with
  | nil =>
    intro l hlen _ _
    unfold lastN
    rw [List.append_nil, show l.length - 50 = 0 by omega, List.drop_zero]
    rfl
  | cons x rest ih =>
    intro l hlen hnd hdisj
    have hx : x ∉ l := hdisj x (List.mem_cons_self x rest)
    have hcx : l.contains x = false := by
      cases hcc : l.contains x with
      | false => rfl
      | true => exact absurd (List.mem_of_elem_eq_true hcc) hx
    have hstep : ledgerAdd l x = lastN 50 (l ++ [x]) := ledgerAdd_eq_lastN l x hcx hlen
    have hlen' : (ledgerAdd l x).length ≤ 50 := ledgerAdd_length l x hlen
    have hnd' : rest.Nodup := (List.nodup_cons.mp hnd).2
    have hxrest : x ∉ rest := (List.nodup_cons.mp hnd).1
    have hdisj' : ∀ y ∈ rest, y ∉ ledgerAdd l x := by
      intro y hy hmem
      rw [hstep] at hmem
      have hsub : y ∈ l ++ [x] := List.drop_subset _ _ hmem
      rcases List.mem_append.mp hsub with hyl | hyx
      · exact hdisj y (List.mem_cons_of_mem x hy) hyl
      · rcases List.mem_singleton.mp hyx with rfl
        exact hxrest hy
    calc List.foldl ledgerAdd l (x :: rest)
        = List.foldl ledgerAdd (ledgerAdd l x) rest := rfl
      _ = lastN 50 (ledgerAdd l x ++ rest) := ih (ledgerAdd l x) hlen' hnd' hdisj'
      _ = lastN 50 (lastN 50 (l ++ [x]) ++ rest) := by rw [hstep]
      _ = lastN 50 ((l ++ [x]) ++ rest) := lastN_append_absorb 50 (l ++ [x]) rest
      _ = lastN 50 (l ++ (x :: rest)) := by rw [List.append_assoc]; rfl

-- ── C8: the bounded transaction ledger ───────────────────────

/-- C8: the ledger keeps at most the 50 most-recently-seen transaction ids in
insertion order — insertion beyond capacity evicts the oldest; a request
whose id is still retained is ignored as a duplicate (processed once); and
after 50 further fresh distinct ids the evicted id is no longer retained, so
resubmitting it is accepted and processed again. -/
theorem C8_transaction_ledger (l : List String) (x : String) (ids : List String)
    (hlen : l.length ≤ 50) (hx : x ∈ l) (hnd : ids.Nodup)
    (hdisj : ∀ y ∈ ids, y ∉ l) (hids : ids.length = 50) :
    (∀ m y, m.length ≤ 50 → (ledgerAdd m y).length ≤ 50) ∧
    (∀ m y, m.length = 50 → m.contains y = false →
       ledgerAdd m y = m.drop 1 ++ [y]) ∧
    (∀ genId st p, st.killSwitchActive = false →
       jsFalsyStr (jsOrStr p.prompt p.text) = false →
       txidOf genId p ∈ st.processedTxIds →
       handlePromptExecutionModel genId st p
         = (PromptOutcome.ignoredDuplicate (txidOf genId p), st)) ∧
    List.foldl ledgerAdd l ids = ids ∧
    x ∉ ids ∧
    (∀ genId st p, st.killSwitchActive = false →
       jsFalsyStr (jsOrStr p.prompt p.text) = false →
       st.processedTxIds = List.foldl ledgerAdd l ids →
       txidOf genId p = x →
       (handlePromptExecutionModel genId st p).1 = PromptOutcome.accepted x) := by
  have hfold : List.foldl ledgerAdd l ids = ids := by
    rw [foldl_ledgerAdd_eq ids l hlen hnd hdisj]
    unfold lastN
    rw [List.length_append, hids, show l.length + 50 - 50 = l.length by omega,
      List.drop_left]
  have hxids : x ∉ ids := fun hmem => hdisj x hmem hx
  refine ⟨ledgerAdd_length, ?_, ?_, hfold, hxids, ?_⟩
  · intro m y hm hy
    unfold ledgerAdd
    rw [hy]
    simp only [Bool.false_eq_true, if_false]
    rw [if_pos (by simp [hm] : (m ++ [y]).length > 50),
      List.drop_append_eq_append_drop, hm]
    rfl
  · intro genId st p hkill hprompt hmem
    unfold handlePromptExecutionModel
    rw [hkill, hprompt]
    simp only [Bool.false_eq_true, if_false]
    rw [if_pos (List.elem_eq_true_of_mem hmem)]
  · intro genId st p hkill hprompt hledger htx
    unfold handlePromptExecutionModel
    rw [hkill, hprompt]
    simp only [Bool.false_eq_true, if_false]
    rw [htx, hledger, hfold]
    have : ids.contains x = false := by
      cases hcc : ids.contains x with
      | false => rfl
      | true => exact absurd (List.mem_of_elem_eq_true hcc) hxids
    rw [this]
    rfl

/-- C8 witness: with a one-id ledger, folding in fifty fresh ids leaves
exactly those fifty, and the original id is gone. -/
theorem C8_transaction_ledger_w :
    (("a" : String) ∈ ["a"] ∧ c8Ids.Nodup ∧ c8Ids.length = 50) ∧
    List.foldl ledgerAdd ["a"] c8Ids = c8Ids ∧
    ("a" : String) ∉ c8Ids := by
  have h := C8_transaction_ledger ["a"] "a" c8Ids (by decide) (by decide)
    (by decide) (by decide) (by decide)
  exact ⟨⟨by decide, by decide, by decide⟩, h.2.2.2.1, h.2.2.2.2.1⟩

-- ── Rule-state map lemmas ────────────────────────────────────

/-- Writing a key makes it readable. -/
theorem setState_lookup_self :
    ∀ (m : StateMap) (k : String) (v : RuleState),
      lookupState (setState m k v) k = some v := by
  intro m
  induction m with
  | nil =>
    intro k v
    simp [setState, lookupState]
  | cons p rest ih =>
    intro k v
    by_cases hpk : p.1 = k
    · simp [setState, lookupState, hpk]
    · simp only [setState, lookupState, if_neg hpk]
      exact ih k v

/-- Writing one key leaves every other key unchanged. -/
theorem setState_lookup_other {k k' : String} (h : k' ≠ k) :
    ∀ (m : StateMap) (v : RuleState),
      lookupState (setState m k v) k' = lookupState m k' := by
  intro m
  induction m with
  | nil =>
    intro v
    simp only [setState, lookupState]
    exact if_neg (fun hc => h hc.symm)
  | cons p rest ih =>
    intro v
    by_cases hpk : p.1 = k
    · subst hpk
      simp only [setState, if_pos rfl, lookupState]
      rw [if_neg (fun hc : p.1 = k' => h hc.symm),
        if_neg (fun hc : p.1 = k' => h hc.symm)]
    · simp only [setState, if_neg hpk, lookupState]
      by_cases hpk' : p.1 = k'
      · rw [if_pos hpk', if_pos hpk']
      · rw [if_neg hpk', if_neg hpk']
        exact ih v

/-- Deactivation preserves the entry's key. -/
theorem deactivateEntry_fst (matched : List String) (p : String × RuleState) :
    (deactivateEntry matched p).1 = p.1 := by
  unfold deactivateEntry
  split
  · rfl
  · split <;> rfl

/-- Pointwise reading of the deactivation sweep. -/
theorem markInactive_lookup :
    ∀ (m : StateMap) (matched : List String) (i : String),
      lookupState (markInactive matched m) i
        = (lookupState m i).map
            (fun s => if i ∈ matched then s
                      else if s.active then ⟨false, s.lastTriggered⟩ else s) := by
  intro m
  induction m with
  | nil => intro matched i; rfl
  | cons p rest ih =>
    intro matched i
    simp only [markInactive, List.map_cons] at *
    by_cases hpi : p.1 = i
    · subst hpi
      simp only [lookupState, deactivateEntry_fst, if_pos rfl, Option.map_some']
      by_cases hmch : p.1 ∈ matched
      · simp [deactivateEntry, hmch]
      · cases hact : p.2.active
        · simp [deactivateEntry, hmch, hact]
        · simp [deactivateEntry, hmch, hact]
    · simp only [lookupState, deactivateEntry_fst, if_neg hpi]
      exact ih matched i

-- ── processRule characterization ─────────────────────────────

/-- A rule whose key is absent or different leaves key `i`'s state, and `i`'s
presence in the fired and matched lists, untouched. -/
theorem processRule_other (u c : String) (n : Nat) {i : String} {r : Rule}
    (h : ∀ s, ruleKey r = some s → s ≠ i) (acc : Phase1Acc) :
    lookupState (processRule u c n acc r).state i = lookupState acc.state i ∧
    (i ∈ (processRule u c n acc r).fired ↔ i ∈ acc.fired) ∧
    (i ∈ (processRule u c n acc r).matched ↔ i ∈ acc.matched) := by
  unfold processRule
  rcases hr1 : r.id with _ | i'
  · exact ⟨rfl, Iff.rfl, Iff.rfl⟩
  · rcases hr2 : r.criteria with _ | cr
    · exact ⟨rfl, Iff.rfl, Iff.rfl⟩
    · dsimp only
      by_cases hie : i' = ""
      · rw [if_pos hie]
        exact ⟨rfl, Iff.rfl, Iff.rfl⟩
      · rw [if_neg hie]
        have hne : i' ≠ i := h i' (by simp [ruleKey, hr1, hr2, hie])
        by_cases hm : matchesCrit cr u c = true
        · rw [if_pos hm]
          rcases hst : lookupState acc.state i' with _ | s
          · dsimp only
            exact ⟨setState_lookup_other (Ne.symm hne) acc.state ⟨true, n⟩,
              by simp [List.mem_append, Ne.symm hne],
              by simp [List.mem_append, Ne.symm hne]⟩
          · dsimp only
            by_cases hact : s.active = true
            · rw [if_pos hact]
              exact ⟨rfl, Iff.rfl, by simp [List.mem_append, Ne.symm hne]⟩
            · rw [if_neg hact]
              by_cases hcd : RULE_COOLDOWN_MS ≤ n - s.lastTriggered
              · rw [if_pos hcd]
                exact ⟨setState_lookup_other (Ne.symm hne) acc.state ⟨true, n⟩,
                  by simp [List.mem_append, Ne.symm hne],
                  by simp [List.mem_append, Ne.symm hne]⟩
              · rw [if_neg hcd]
                exact ⟨rfl, Iff.rfl, by simp [List.mem_append, Ne.symm hne]⟩
        · rw [if_neg hm]
          exact ⟨rfl, Iff.rfl, Iff.rfl⟩

/-- Folding a run of foreign-keyed rules preserves key `i`'s view. -/
theorem foldl_processRule_other (u c : String) (n : Nat) {i : String}
    (L : List Rule) (h : ∀ r' ∈ L, ∀ s, ruleKey r' = some s → s ≠ i) :
    ∀ acc : Phase1Acc,
      lookupState (List.foldl (processRule u c n) acc L).state i
          = lookupState acc.state i ∧
      (i ∈ (List.foldl (processRule u c n) acc L).fired ↔ i ∈ acc.fired) ∧
      (i ∈ (List.foldl (processRule u c n) acc L).matched ↔ i ∈ acc.matched) := by
  induction L with
  | nil => intro acc; exact ⟨rfl, Iff.rfl, Iff.rfl⟩
  | cons r' rest ih =>
    intro acc
    have hstep := processRule_other u c n (h r' (List.mem_cons_self r' rest)) acc
    have hrest := ih (fun q hq => h q (List.mem_cons_of_mem r' hq))
      (processRule u c n acc r')
    rw [List.foldl_cons]
    exact ⟨hrest.1.trans hstep.1, hrest.2.1.trans hstep.2.1,
      hrest.2.2.trans hstep.2.2⟩

/-- A valid rule that does not match the observation changes nothing. -/
theorem processRule_self_nomatch (u c : String) (n : Nat) {i : String} {r : Rule}
    {cr : Criteria} (hid : r.id = some i) (hne : i ≠ "") (hcr : r.criteria = some cr)
    (hm : matchesCrit cr u c = false) (acc : Phase1Acc) :
    processRule u c n acc r = acc := by
  unfold processRule
  rw [hid, hcr]
  dsimp only
  rw [if_neg hne, if_neg (by rw [hm]; simp)]

/-- A valid matching rule records the match and steps its own debounce state:
first match fires, an active state is left alone, an inactive state re-fires
exactly when the cooldown since lastTriggered has elapsed. -/
theorem processRule_self_match (u c : String) (n : Nat) {i : String} {r : Rule}
    {cr : Criteria} (hid : r.id = some i) (hne : i ≠ "") (hcr : r.criteria = some cr)
    (hm : matchesCrit cr u c = true) (acc : Phase1Acc) :
    (processRule u c n acc r).matched = acc.matched ++ [i] ∧
    (lookupState acc.state i = none →
       (processRule u c n acc r).fired = acc.fired ++ [i] ∧
       lookupState (processRule u c n acc r).state i = some ⟨true, n⟩) ∧
    (∀ s, lookupState acc.state i = some s → s.active = true →
       (processRule u c n acc r).fired = acc.fired ∧
       lookupState (processRule u c n acc r).state i = some s) ∧
    (∀ s, lookupState acc.state i = some s → s.active = false →
       RULE_COOLDOWN_MS ≤ n - s.lastTriggered →
       (processRule u c n acc r).fired = acc.fired ++ [i] ∧
       lookupState (processRule u c n acc r).state i = some ⟨true, n⟩) ∧
    (∀ s, lookupState acc.state i = some s → s.active = false →
       n - s.lastTriggered < RULE_COOLDOWN_MS →
       (processRule u c n acc r).fired = acc.fired ∧
       lookupState (processRule u c n acc r).state i = some s) := by
  unfold processRule
  rw [hid, hcr]
  dsimp only
  rw [if_neg hne, if_pos hm]
  rcases hst : lookupState acc.state i with _ | s
  · dsimp only
    refine ⟨rfl, fun _ => ⟨rfl, setState_lookup_self acc.state i ⟨true, n⟩⟩,
      ?_, ?_, ?_⟩
    · intro s hs
      exact absurd hs (by simp)
    · intro s hs
      exact absurd hs (by simp)
    · intro s hs
      exact absurd hs (by simp)
  · dsimp only
    by_cases hact : s.active = true
    · rw [if_pos hact]
      refine ⟨rfl, fun hcontra => absurd hcontra (by simp), ?_, ?_, ?_⟩
      · intro s' hs' _
        exact ⟨rfl, by rw [hst]; exact hs'⟩
      · intro s' hs' hact' _
        rcases Option.some.inj hs' with rfl
        rw [hact] at hact'
        exact absurd hact' (by simp)
      · intro s' hs' hact' _
        rcases Option.some.inj hs' with rfl
        rw [hact] at hact'
        exact absurd hact' (by simp)
    · have hact' : s.active = false := by
        revert hact; cases s.active <;> simp
      rw [if_neg hact]
      by_cases hcd : RULE_COOLDOWN_MS ≤ n - s.lastTriggered
      · rw [if_pos hcd]
        refine ⟨rfl, fun hcontra => absurd hcontra (by simp), ?_, ?_, ?_⟩
        · intro s' hs' hacts
          rcases Option.some.inj hs' with rfl
          rw [hact'] at hacts
          exact absurd hacts (by simp)
        · intro s' hs' _ _
          exact ⟨rfl, setState_lookup_self acc.state i ⟨true, n⟩⟩
        · intro s' hs' _ hlt
          rcases Option.some.inj hs' with rfl
          omega
      · have hlt : n - s.lastTriggered < RULE_COOLDOWN_MS := by omega
        rw [if_neg hcd]
        refine ⟨rfl, fun hcontra => absurd hcontra (by simp), ?_, ?_, ?_⟩
        · intro s' hs' hacts
          rcases Option.some.inj hs' with rfl
          rw [hact'] at hacts
          exact absurd hacts (by simp)
        · intro s' hs' _ hge
          rcases Option.some.inj hs' with rfl
          omega
        · intro s' hs' _ _
          exact ⟨rfl, by rw [hst]; exact hs'⟩

/-- In a rule list with pairwise-distinct keys, every rule on either side of
`r` carries a key different from `r`'s. -/
theorem keys_unique_of_split {l1 l2 : List Rule} {r : Rule} {i : String}
    (hkey : ruleKey r = some i)
    (hnodup : ((l1 ++ r :: l2).filterMap ruleKey).Nodup) :
    (∀ r' ∈ l1, ∀ s, ruleKey r' = some s → s ≠ i) ∧
    (∀ r' ∈ l2, ∀ s, ruleKey r' = some s → s ≠ i) := by
  have hsplit : List.filterMap ruleKey (l1 ++ r :: l2)
      = List.filterMap ruleKey l1 ++ i :: List.filterMap ruleKey l2 := by
    simp [List.filterMap_append, List.filterMap_cons, hkey]
  rw [hsplit, List.nodup_append] at hnodup
  obtain ⟨hn1, hn2, hdisj⟩ := hnodup
  constructor
  · intro r' hr' s hs heq
    subst heq
    exact hdisj (List.mem_filterMap.mpr ⟨r', hr', hs⟩) (List.mem_cons_self _ _)
  · intro r' hr' s hs heq
    subst heq
    exact (List.nodup_cons.mp hn2).1 (List.mem_filterMap.mpr ⟨r', hr', hs⟩)

-- ── C6: rule trigger debounce ────────────────────────────────

/-- C6 (amended): for a registered rule with a valid, unique id evaluated
against one observation: with no prior state a match fires and creates an
active state stamped lastTriggeredAt = now; while the state is active a match
neither re-fires nor changes the state; an inactive state re-fires exactly
when at least the 30 s cooldown has elapsed since lastTriggeredAt — the time
the rule last fired — and is otherwise suppressed with its state unchanged;
and a rule with existing state that does not match transitions to inactive
without firing, keeping its lastTriggeredAt. -/
theorem C6_rule_debounce (rules : List Rule) (url category : String) (now : Nat)
    (st : StateMap) (r : Rule) (i : String) (cr : Criteria)
    (hmem : r ∈ rules) (hid : r.id = some i) (hne : i ≠ "")
    (hcr : r.criteria = some cr)
    (hnodup : (rules.filterMap ruleKey).Nodup) :
    (matchesCrit cr url category = true → lookupState st i = none →
       i ∈ (checkRulesModel rules url category now st).2 ∧
       lookupState (checkRulesModel rules url category now st).1 i
         = some ⟨true, now⟩) ∧
    (matchesCrit cr url category = true → ∀ t, lookupState st i = some ⟨true, t⟩ →
       i ∉ (checkRulesModel rules url category now st).2 ∧
       lookupState (checkRulesModel rules url category now st).1 i
         = some ⟨true, t⟩) ∧
    (matchesCrit cr url category = true → ∀ t, lookupState st i = some ⟨false, t⟩ →
       RULE_COOLDOWN_MS ≤ now - t →
       i ∈ (checkRulesModel rules url category now st).2 ∧
       lookupState (checkRulesModel rules url category now st).1 i
         = some ⟨true, now⟩) ∧
    (matchesCrit cr url category = true → ∀ t, lookupState st i = some ⟨false, t⟩ →
       now - t < RULE_COOLDOWN_MS →
       i ∉ (checkRulesModel rules url category now st).2 ∧
       lookupState (checkRulesModel rules url category now st).1 i
         = some ⟨false, t⟩) ∧
    (matchesCrit cr url category = false →
       ∀ a t, lookupState st i = some ⟨a, t⟩ →
       i ∉ (checkRulesModel rules url category now st).2 ∧
       lookupState (checkRulesModel rules url category now st).1 i
         = some ⟨false, t⟩) := by
  obtain ⟨l1, l2, rfl⟩ := List.append_of_mem hmem
  have hkey : ruleKey r = some i := by simp [ruleKey, hid, hcr, hne]
  obtain ⟨h1, h2⟩ := keys_unique_of_split hkey hnodup
  have hconde : (l1 ++ r :: l2).isEmpty = false := by cases l1 <;> rfl
  unfold checkRulesModel
  rw [if_neg (show ¬((l1 ++ r :: l2).isEmpty = true) by rw [hconde]; simp)]
  dsimp only
  rw [List.foldl_append, List.foldl_cons]
  set acc1 := List.foldl (processRule url category now) ⟨st, [], []⟩ l1 with hacc1
  set acc2 := processRule url category now acc1 r with hacc2
  set accF := List.foldl (processRule url category now) acc2 l2 with haccF
  have hfold1 := foldl_processRule_other url category now l1 h1 ⟨st, [], []⟩
  have hs1 : lookupState acc1.state i = lookupState st i := hfold1.1
  have hf1 : i ∉ acc1.fired := fun hcon => List.not_mem_nil i (hfold1.2.1.mp hcon)
  have hm1 : i ∉ acc1.matched := fun hcon => List.not_mem_nil i (hfold1.2.2.mp hcon)
  have hfoldF := foldl_processRule_other url category now l2 h2 acc2
  have hsF : lookupState accF.state i = lookupState acc2.state i := hfoldF.1
  have hfF : i ∈ accF.fired ↔ i ∈ acc2.fired := hfoldF.2.1
  have hmF : i ∈ accF.matched ↔ i ∈ acc2.matched := hfoldF.2.2
  have hlook := markInactive_lookup accF.state accF.matched i
  refine ⟨?_, ?_, ?_, ?_, ?_⟩
  · intro hm hnone
    have hself := processRule_self_match url category now hid hne hcr hm acc1
    obtain ⟨hfired2, hstate2⟩ := hself.2.1 (hs1.trans hnone)
    have himatch : i ∈ accF.matched := hmF.mpr
      (by rw [hself.1]; exact List.mem_append_right _ (List.mem_singleton.mpr rfl))
    constructor
    · show i ∈ accF.fired
      exact hfF.mpr
        (by rw [hfired2]; exact List.mem_append_right _ (List.mem_singleton.mpr rfl))
    · show lookupState (markInactive accF.matched accF.state) i = some ⟨true, now⟩
      rw [hlook, hsF, hstate2]
      simp [himatch]
  · intro hm t hsome
    have hself := processRule_self_match url category now hid hne hcr hm acc1
    obtain ⟨hfired2, hstate2⟩ := hself.2.2.1 ⟨true, t⟩ (hs1.trans hsome) rfl
    have himatch : i ∈ accF.matched := hmF.mpr
      (by rw [hself.1]; exact List.mem_append_right _ (List.mem_singleton.mpr rfl))
    constructor
    · show i ∉ accF.fired
      intro hcon
      have hcon2 := hfF.mp hcon
      rw [hfired2] at hcon2
      exact hf1 hcon2
    · show lookupState (markInactive accF.matched accF.state) i = some ⟨true, t⟩
      rw [hlook, hsF, hstate2]
      simp [himatch]
  · intro hm t hsome hcd
    have hself := processRule_self_match url category now hid hne hcr hm acc1
    obtain ⟨hfired2, hstate2⟩ := hself.2.2.2.1 ⟨false, t⟩ (hs1.trans hsome) rfl hcd
    have himatch : i ∈ accF.matched := hmF.mpr
      (by rw [hself.1]; exact List.mem_append_right _ (List.mem_singleton.mpr rfl))
    constructor
    · show i ∈ accF.fired
      exact hfF.mpr
        (by rw [hfired2]; exact List.mem_append_right _ (List.mem_singleton.mpr rfl))
    · show lookupState (markInactive accF.matched accF.state) i = some ⟨true, now⟩
      rw [hlook, hsF, hstate2]
      simp [himatch]
  · intro hm t hsome hlt
    have hself := processRule_self_match url category now hid hne hcr hm acc1
    obtain ⟨hfired2, hstate2⟩ := hself.2.2.2.2 ⟨false, t⟩ (hs1.trans hsome) rfl hlt
    have himatch : i ∈ accF.matched := hmF.mpr
      (by rw [hself.1]; exact List.mem_append_right _ (List.mem_singleton.mpr rfl))
    constructor
    · show i ∉ accF.fired
      intro hcon
      have hcon2 := hfF.mp hcon
      rw [hfired2] at hcon2
      exact hf1 hcon2
    · show lookupState (markInactive accF.matched accF.state) i = some ⟨false, t⟩
      rw [hlook, hsF, hstate2]
      simp [himatch]
  · intro hm a t hsome
    have hsame := processRule_self_nomatch url category now hid hne hcr hm acc1
    have hstate2 : lookupState acc2.state i = some ⟨a, t⟩ := by
      rw [hacc2, hsame]
      exact hs1.trans hsome
    have hfired2 : acc2.fired = acc1.fired := by rw [hacc2, hsame]
    have hmatch2 : acc2.matched = acc1.matched := by rw [hacc2, hsame]
    have hnomatch : i ∉ accF.matched := by
      intro hcon
      have hcon2 := hmF.mp hcon
      rw [hmatch2] at hcon2
      exact hm1 hcon2
    constructor
    · show i ∉ accF.fired
      intro hcon
      have hcon2 := hfF.mp hcon
      rw [hfired2] at hcon2
      exact hf1 hcon2
    · show lookupState (markInactive accF.matched accF.state) i = some ⟨false, t⟩
      rw [hlook, hsF, hstate2]
      cases a
      · simp [hnomatch]
      · simp [hnomatch]

/-- C6 counterexample: the rule fires at t = 0, goes inactive at t = 25000,
and on matching again at t = 30000 it fires although only 5000 ms — less than
the 30 s cooldown — have passed since it went inactive: the code measures the
cooldown from lastTriggeredAt (the last fire), not from going inactive. -/
theorem C6_rule_debounce_cx :
    (checkRulesModel [c6Rule] "https://a.example" "social" 0 []).2 = ["r1"] ∧
    (checkRulesModel [c6Rule] "https://a.example" "social" 0 []).1
        = [("r1", ⟨true, 0⟩)] ∧
    (checkRulesModel [c6Rule] "https://b.example" "other" 25000
        [("r1", ⟨true, 0⟩)]).1 = [("r1", ⟨false, 0⟩)] ∧
    (checkRulesModel [c6Rule] "https://b.example" "other" 25000
        [("r1", ⟨true, 0⟩)]).2 = [] ∧
    (checkRulesModel [c6Rule] "https://c.example" "social" 30000
        [("r1", ⟨false, 0⟩)]).2 = ["r1"] ∧
    30000 - 25000 < RULE_COOLDOWN_MS := by
  decide

/-- C6 witness: a category rule with no prior state fires on first match and
its state is created active with lastTriggeredAt = now. -/
theorem C6_rule_debounce_w :
    (matchesCrit ⟨"category", "social"⟩ "https://a.example" "social" = true ∧
     lookupState [] "r1" = none) ∧
    "r1" ∈ (checkRulesModel [c6Rule] "https://a.example" "social" 5 []).2 ∧
    lookupState (checkRulesModel [c6Rule] "https://a.example" "social" 5 []).1 "r1"
      = some ⟨true, 5⟩ :=
  ⟨⟨by decide, rfl⟩,
   (C6_rule_debounce [c6Rule] "https://a.example" "social" 5 [] c6Rule "r1"
      ⟨"category", "social"⟩ (List.mem_singleton.mpr rfl) rfl (by decide) rfl
      (by decide)).1 (by decide) rfl⟩

end Autonion
